import Mathlib

/-!
Verification of the IFT patch-map core of `patch-subset-incxfer`.

This file gives a shallow embedding, in Lean 4, of the code relevant to the
patch-map format 2 codec (`ift/proto/format_2_patch_map.cc`), the IFT table
patch-map maintenance (`ift/proto/ift_table.cc`: `RemovePatches`,
`CreatePatchMap`, and the IFTB-conversion table reordering in `AddToFont`),
and the collaborating sparse-bit-set codec, together with theorems settling
the specification claims about them.

Conventions of the embedding:
* byte strings are `List Nat` (each element a byte value);
* `absl::Status` errors are the constructors of `Err`, one per distinct
  error produced by the embedded code;
* `absl::string_view::substr` / `absl::ClippedSubstr` are `List.drop`
  (clamped at the end of the data, as `ClippedSubstr` is);
* C++ out-parameters are threaded explicitly: functions that mutate an
  out-parameter return its final value even when they also return an error,
  mirroring mutation that happened before the failing statement.
-/

set_option linter.constructorNameAsVariable false

namespace IFT

/-- The distinct error statuses produced by the embedded code.  In the C++
source these are all `absl::InvalidArgumentError` (or `UnimplementedError`)
values distinguished by message; here each message is a constructor. -/
inductive Err where
  /-- truncated input during a read ("Not enough input data.") -/
  | notEnoughInput
  /-- "Invalid format number (!= 2)." -/
  | invalidFormat
  /-- "Unrecognized encoding value." (`IntToEncoding`) -/
  | unknownEncoding
  /-- "Unknown patch encoding." (`EncodingToInt`) -/
  | unknownPatchEncoding
  /-- "Exceeded maximum number of entries (0xFFFF)." -/
  | entryCountLimit
  /-- "Exceeded maximum uri template size (0xFFFF)." -/
  | uriTemplateLimit
  /-- "Exceed max number of feature tags (0xFF)." -/
  | featureCountExceeded
  /-- design space serialization is unimplemented in the source -/
  | designSpaceUnimplemented
  /-- "Exceed max entry index delta (int16)." -/
  | indexDeltaOverflow
  /-- a malformed sparse bit set -/
  | invalidSparseBitSet
  /-- "cannot load IFT table that maps a codepoint to more than one patch." -/
  | duplicateCodepoint
deriving DecidableEq

/-- The proto `PatchEncoding` enumeration.  `defaultEncoding` is the proto
sentinel `DEFAULT_ENCODING`; the other three are the wire-encodable values
(IFTB/glyph-keyed = 0, shared brotli = 1, per-table shared brotli = 2). -/
inductive PatchEncoding where
  | defaultEncoding
  | iftb
  | sharedBrotli
  | perTableSharedBrotli
deriving DecidableEq

/-- `EncodingToInt` from `format_2_patch_map.cc`: the wire value of an
encoding, failing on anything that is not one of the three wire values. -/
def encodingToInt : PatchEncoding → Except Err Nat
  | .iftb => .ok 0
  | .sharedBrotli => .ok 1
  | .perTableSharedBrotli => .ok 2
  | _ => .error .unknownPatchEncoding

/-- `IntToEncoding` from `format_2_patch_map.cc`: values other than 0, 1, 2
are rejected. -/
def intToEncoding (value : Nat) : Except Err PatchEncoding :=
  match value with
  | 0 => .ok .iftb
  | 1 => .ok .sharedBrotli
  | 2 => .ok .perTableSharedBrotli
  | _ => .error .unknownEncoding

/-- The numeric wire value of an encoding as a total function, for stating
theorems; 0/1/2 as in `encodingToInt`, and 3 (a value `intToEncoding`
rejects) for the proto sentinel, which has no wire value. -/
def encodingWireValue : PatchEncoding → Nat
  | .defaultEncoding => 3
  | .iftb => 0
  | .sharedBrotli => 1
  | .perTableSharedBrotli => 2

/-- `PatchMap::Coverage`: the activation coverage of one patch-map entry.
`designSpace` segments are opaque here (the embedded code only ever tests
emptiness and never reads their contents). -/
structure Coverage where
  codepoints : List Nat
  features : List Nat
  designSpace : List Nat
deriving DecidableEq

/-- `PatchMap::Entry`: coverage, patch index, encoding and the extension
flag. -/
structure Entry where
  coverage : Coverage
  patchIndex : Nat
  encoding : PatchEncoding
  extensionEntry : Bool
deriving DecidableEq

/-! ### Byte reading and writing (`common/font_helper.h` helpers)

`FontHelper::ReadUIntN` parse big-endian integers from the front of a view
and fail on truncated input; `FontHelper::WriteUIntN` append big-endian
bytes. -/

/-- `FontHelper::ReadUInt8` applied at `data.substr(off)`. -/
def readU8At (data : List Nat) (off : Nat) : Except Err Nat :=
  match data.drop off with
  | [] => .error .notEnoughInput
  | b :: _ => .ok b

/-- `FontHelper::ReadUInt16` applied at `data.substr(off)` (big-endian). -/
def readU16At (data : List Nat) (off : Nat) : Except Err Nat :=
  match data.drop off with
  | b0 :: b1 :: _ => .ok (b0 * 256 + b1)
  | _ => .error .notEnoughInput

/-- `FontHelper::ReadUInt24` applied at `data.substr(off)` (big-endian). -/
def readU24At (data : List Nat) (off : Nat) : Except Err Nat :=
  match data.drop off with
  | b0 :: b1 :: b2 :: _ => .ok (b0 * 65536 + b1 * 256 + b2)
  | _ => .error .notEnoughInput

/-- `FontHelper::ReadInt16` applied at `data.substr(off)`: big-endian,
two's complement. -/
def readI16At (data : List Nat) (off : Nat) : Except Err Int :=
  match data.drop off with
  | b0 :: b1 :: _ =>
      let v := b0 * 256 + b1
      .ok (if v < 32768 then (v : Int) else (v : Int) - 65536)
  | _ => .error .notEnoughInput

/-- Big-endian bytes of a 16-bit value (`FontHelper::WriteUInt16`). -/
def u16Bytes (v : Nat) : List Nat := [v / 256 % 256, v % 256]

/-- Big-endian bytes of a 32-bit value (`FontHelper::WriteUInt32`). -/
def u32Bytes (v : Nat) : List Nat :=
  [v / 16777216 % 256, v / 65536 % 256, v / 256 % 256, v % 256]

/-! ### Sparse bit set codec (component A)

Modelled from the spec: the sparse-bit-set codec's source is not under
`src/` (only its callers are).  Per spec section 4.1 it encodes a set of
non-negative integers as a breadth-first bit tree of branching factor 8: a
node's bit `k` is set iff an element exists in the subtree rooted at child
`k`, leaf bits are individual elements, the empty set encodes to the empty
byte string, decoding rejects truncated input, and the consumed byte count
is computable from the tree structure.  The spec does not pin down how the
tree depth is conveyed; we model a leading depth byte, which is what makes
the consumed length computable from the bytes. -/

/-- Modelled from the spec: the child node starts produced by one tree
byte `b` whose children each cover `size` consecutive values. -/
def sbsChildren (start size b : Nat) : List Nat :=
  (List.range 8).filterMap fun k =>
    if b.testBit k then some (start + k * size) else none

/-- Modelled from the spec: breadth-first decoding of the levels of the bit
tree.  `starts` are the value offsets of the nodes of the current level,
`d` the number of levels still to read; returns the decoded elements and
the number of bytes consumed.  At `d = 0` the surviving offsets are the
elements themselves. -/
def sbsDecodeFrom : List Nat → List Nat → Nat → Except Err (List Nat × Nat)
  | _, starts, 0 => .ok (starts, 0)
  | data, starts, d + 1 =>
    let n := starts.length
    if data.length < n then .error .notEnoughInput
    else
      let level := (starts.zip (data.take n)).map fun p => sbsChildren p.1 (8 ^ d) p.2
      match sbsDecodeFrom (data.drop n) level.flatten d with
      | .error e => .error e
      | .ok (elems, consumed) => .ok (elems, n + consumed)

/-- Modelled from the spec: `SparseBitSet::Decode`.  Returns the decoded
elements (ascending) and the number of bytes of `data` consumed; trailing
bytes are ignored. -/
def sbsDecode (data : List Nat) : Except Err (List Nat × Nat) :=
  match data with
  | [] => .ok ([], 0)
  | d :: rest =>
    if d = 0 then .error .invalidSparseBitSet
    else
      match sbsDecodeFrom rest [0] d with
      | .error e => .error e
      | .ok (elems, consumed) => .ok (elems, 1 + consumed)

/-- Modelled from the spec: whether any element lies in `[lo, lo + size)`. -/
def sbsHasElem (elems : List Nat) (lo size : Nat) : Bool :=
  elems.any fun e => decide (lo ≤ e) && decide (e < lo + size)

/-- Modelled from the spec: the byte of the tree node at offset `start`
whose children each cover `size` values. -/
def sbsNodeByte (elems : List Nat) (start size : Nat) : Nat :=
  (List.range 8).foldl
    (fun acc k => if sbsHasElem elems (start + k * size) size then acc + 2 ^ k else acc) 0

/-- Modelled from the spec: breadth-first encoding of the levels of the bit
tree, from the nodes at offsets `starts` with `d` levels remaining. -/
def sbsEncodeFrom (elems : List Nat) : List Nat → Nat → List Nat
  | _, 0 => []
  | starts, d + 1 =>
    let bytes := starts.map fun st => sbsNodeByte elems st (8 ^ d)
    let level := starts.map fun st => sbsChildren st (8 ^ d) (sbsNodeByte elems st (8 ^ d))
    bytes ++ sbsEncodeFrom elems level.flatten d

/-- Modelled from the spec: the largest element of the set (0 if empty). -/
def sbsMax (elems : List Nat) : Nat := elems.foldl Nat.max 0

/-- Modelled from the spec: the least depth `d ≥ 1` with `m < 8 ^ d`,
computed with fuel (the first argument; `m` itself is always enough). -/
def sbsDepthAux : Nat → Nat → Nat
  | 0, _ => 1
  | fuel + 1, m => if m < 8 then 1 else 1 + sbsDepthAux fuel (m / 8)

/-- Modelled from the spec: tree depth needed for largest element `m`. -/
def sbsDepth (m : Nat) : Nat := sbsDepthAux m m

/-- Modelled from the spec: `SparseBitSet::Encode`.  Deterministic; the
empty set encodes to the empty byte string. -/
def sbsEncode (elems : List Nat) : List Nat :=
  if elems.isEmpty then []
  else
    let d := sbsDepth (sbsMax elems)
    d % 256 :: sbsEncodeFrom elems [0] d

/-! ### Format 2 patch map codec (`ift/proto/format_2_patch_map.cc`) -/

/-- `PickDefaultEncoding`: count the wire encodings over all entries
(entries whose encoding has no wire value are ignored by the counting loop)
and pick by the three chained comparisons of the source. -/
def pickDefaultEncoding (patchMap : List Entry) : PatchEncoding :=
  let c0 := patchMap.countP fun e => e.encoding = PatchEncoding.iftb
  let c1 := patchMap.countP fun e => e.encoding = PatchEncoding.sharedBrotli
  let c2 := patchMap.countP fun e => e.encoding = PatchEncoding.perTableSharedBrotli
  if c0 ≥ c1 ∧ c0 ≥ c2 then .iftb
  else if c1 ≥ c0 ∧ c1 ≥ c2 then .sharedBrotli
  else .perTableSharedBrotli

/-- The count of entries carrying encoding `e` (the quantity
`PickDefaultEncoding` compares). -/
def countEnc (patchMap : List Entry) (enc : PatchEncoding) : Nat :=
  patchMap.countP fun e => e.encoding = enc

/-- `Coverage::SmallestCodepoint`: the minimum of the codepoint set. -/
def smallestCodepoint : List Nat → Nat
  | [] => 0
  | c :: cs => cs.foldl Nat.min c

/-- `EncodeEntry`: the bytes appended to the output for one entry.  (The
source appends to an output string threaded by reference; on success the
appended chunk is exactly this list.)  Note two faithful oddities of the
source: the `WRITE_INT16` macro checks the `uint16_t` range (so negative
deltas are rejected), and the codepoint branch appends the sparse bit set
without writing the `u24` bias the decoder expects. -/
def encodeEntry (entry : Entry) (lastEntryIndex : Nat)
    (defaultEncoding : PatchEncoding) : Except Err (List Nat) :=
  let coverage := entry.coverage
  let hasCodepoints := coverage.codepoints ≠ []
  let hasFeatures := coverage.features ≠ []
  let hasDesignSpace := coverage.designSpace ≠ []
  let delta : Int := (entry.patchIndex : Int) - (lastEntryIndex : Int)
  let hasDelta := delta ≠ 1
  let hasPatchEncoding := entry.encoding ≠ defaultEncoding
  let format :=
    (if hasFeatures then 1 else 0) + (if hasDesignSpace then 2 else 0) +
      (if hasDelta then 8 else 0) + (if hasPatchEncoding then 16 else 0) +
      (if hasCodepoints then 32 else 0)
  let out := [format]
  match
    if hasFeatures then
      if coverage.features.length > 255 then Except.error Err.featureCountExceeded
      else .ok (out ++ [coverage.features.length % 256] ++
        (coverage.features.map u32Bytes).flatten)
    else .ok out with
  | .error e => .error e
  | .ok out =>
  if hasDesignSpace then .error .designSpaceUnimplemented
  else
  match
    if hasDelta then
      if delta < 0 ∨ delta > 65535 then Except.error Err.indexDeltaOverflow
      else .ok (out ++ u16Bytes delta.toNat)
    else .ok out with
  | .error e => .error e
  | .ok out =>
  match
    if hasPatchEncoding then
      match encodingToInt entry.encoding with
      | .error e => Except.error e
      | .ok v => .ok (out ++ [v % 256])
    else .ok out with
  | .error e => .error e
  | .ok out =>
  if hasCodepoints then
    let bias := smallestCodepoint coverage.codepoints
    let biased := coverage.codepoints.map (· - bias)
    .ok (out ++ sbsEncode biased)
  else .ok out

/-- `EncodeEntries`: encode the entries whose `extension_entry` flag equals
`isExt`, threading `last_entry_index` (initially 0, updated only for
entries actually encoded).  Returns the concatenated entry bytes. -/
def encodeEntries : List Entry → Bool → PatchEncoding → Nat → Except Err (List Nat)
  | [], _, _, _ => .ok []
  | entry :: rest, isExt, defaultEncoding, lastEntryIndex =>
    if entry.extensionEntry ≠ isExt then
      encodeEntries rest isExt defaultEncoding lastEntryIndex
    else
      match encodeEntry entry lastEntryIndex defaultEncoding with
      | .error e => .error e
      | .ok bytes =>
        match encodeEntries rest isExt defaultEncoding entry.patchIndex with
        | .error e => .error e
        | .ok restBytes => .ok (bytes ++ restBytes)

/-- The header `Format2PatchMap::Serialize` writes, field by field in
source order: format byte 2, 4 reserved zero bytes, the 16-byte id (all
zero in the source), the default-encoding byte, the entry count, the
mappings offset field (the source writes `header_min_length = 22` plus the
URI template length), the idStrings offset (0), the URI template length,
and the URI template bytes. -/
def serializeHeader (encodingValue entryCount : Nat) (uriTemplate : List Nat) : List Nat :=
  [2] ++ [0, 0, 0, 0] ++
    [0, 0, 0, 0] ++ [0, 0, 0, 0] ++ [0, 0, 0, 0] ++ [0, 0, 0, 0] ++
    [encodingValue % 256] ++
    u16Bytes entryCount ++
    u32Bytes (22 + uriTemplate.length) ++
    u32Bytes 0 ++
    u16Bytes uriTemplate.length ++
    uriTemplate

/-- `Format2PatchMap::Serialize`.  The `WRITE_UINT16` overflow checks on
the entry count and the URI template length are the two `if`s. -/
def serialize (patchMap : List Entry) (isExt : Bool)
    (uriTemplate : List Nat) : Except Err (List Nat) :=
  let defaultEncoding := pickDefaultEncoding patchMap
  match encodingToInt defaultEncoding with
  | .error e => .error e
  | .ok encodingValue =>
    if patchMap.length > 65535 then .error .entryCountLimit
    else if uriTemplate.length > 65535 then .error .uriTemplateLimit
    else
      match encodeEntries patchMap isExt defaultEncoding 0 with
      | .error e => .error e
      | .ok entryBytes =>
        .ok (serializeHeader encodingValue patchMap.length uriTemplate ++ entryBytes)

/-- The feature-tag loop of `DecodeEntry`.  Faithful oddity: the
`READ_UINT32` macro of the source calls `FontHelper::ReadUInt16`, so each
tag is read from only 2 bytes, while the offset advances by 4.  Tags are
inserted into a set (`coverage.features.insert`). -/
def readFeatureTags (data : List Nat) : Nat → Nat → List Nat → Except Err (List Nat × Nat)
  | offset, 0, acc => .ok (acc, offset)
  | offset, n + 1, acc =>
    match readU16At data offset with
    | .error e => .error e
    | .ok tag =>
      readFeatureTags data (offset + 4) n (if acc.contains tag then acc else acc ++ [tag])

/-- `DecodeEntry`.  Takes the running `entry_index` and the out-map,
returns the remaining data, the updated index, and the updated out-map.
(The source's success path is mid-refactor: the function is declared with
three parameters but defined with four, and its success `return` statement
does not produce the declared `StatusOr<string_view>` payload; we embed
the declared contract — the remaining suffix `data.substr(offset)` with
`offset` exactly as the body computes it.)  `entry_index` is a `uint32_t`,
hence the mod-2^32 arithmetic.  Faithful oddities: the index is always
incremented before the optional delta is added, and the codepoint branch
never advances `offset` past the sparse-bit-set bytes (a TODO in the
source). -/
def decodeEntry (data : List Nat) (defaultEncoding : PatchEncoding)
    (entryIndex : Nat) (out : List Entry) :
    Except Err (List Nat × Nat × List Entry) := do
  if data.isEmpty then throw Err.notEnoughInput
  let format ← readU8At data 0
  let offset := 1
  let (features, offset) ←
    if format &&& 1 ≠ 0 then do
      let featureCount ← readU8At data offset
      readFeatureTags data (offset + 1) featureCount []
    else pure ([], offset)
  let offset ←
    if format &&& 2 ≠ 0 then do
      let segmentCount ← readU16At data offset
      pure (offset + 2 + segmentCount * 12)
    else pure offset
  let offset ←
    if format &&& 4 ≠ 0 then do
      let copyCount ← readU16At data offset
      pure (offset + 2 + copyCount * 2)
    else pure offset
  let entryIndex := (entryIndex + 1) % 4294967296
  let (entryIndex, offset) ←
    if format &&& 8 ≠ 0 then do
      let delta ← readI16At data offset
      pure ((((entryIndex : Int) + delta) % 4294967296).toNat, offset + 2)
    else pure (entryIndex, offset)
  let (encoding, offset) ←
    if format &&& 16 ≠ 0 then do
      let encodingInt ← readU8At data offset
      let newEncoding ← intToEncoding encodingInt
      pure (newEncoding, offset + 1)
    else pure (defaultEncoding, offset)
  let (codepoints, offset) ←
    if format &&& 32 ≠ 0 then do
      let bias ← readU24At data offset
      let offset := offset + 3
      let (cps, _consumed) ← sbsDecode (data.drop offset)
      pure (cps.map (· + bias), offset)
    else pure ([], offset)
  let out :=
    if format &&& 64 = 0 then
      out ++ [⟨⟨codepoints, features, []⟩, entryIndex, encoding, false⟩]
    else out
  pure (data.drop offset, entryIndex, out)

/-- `DecodeEntries`: decode `count` entries in sequence.  The running
`entry_index` starts at 0 and is threaded between entries (the source's
call does not pass it explicitly — its `DecodeEntry` declaration and
definition disagree — so the threading follows the definition's contract).
Returns the loop status together with the out-map, which keeps the entries
added before a failure, as the by-reference out-parameter does. -/
def decodeEntries : List Nat → Nat → PatchEncoding → Nat → List Entry →
    Except Err Unit × List Entry
  | _, 0, _, _, out => (.ok (), out)
  | data, count + 1, defaultEncoding, entryIndex, out =>
    match decodeEntry data defaultEncoding entryIndex out with
    | .error e => (.error e, out)
    | .ok (rest, entryIndex2, out2) =>
      decodeEntries rest count defaultEncoding entryIndex2 out2

/-- `Format2PatchMap::Deserialize`.  The field offsets are the source's
constants (`format` 0, `default_patch_encoding` 9, `mapping_count` 10,
`mappings` 12, `uri_template_length` 20, `uri_template` 22).  Faithful
oddities: the mappings offset is read through the `READ_UINT32` macro,
which actually reads 16 bits, and the status of `DecodeEntries` is bound
to a local and never checked.  The out-map and out-template are
by-reference parameters; the final value of each is returned alongside
the status. -/
def deserialize (data : List Nat) (outInit : List Entry) (uriInit : List Nat) :
    Except Err Unit × List Entry × List Nat :=
  match readU8At data 0 with
  | .error e => (.error e, outInit, uriInit)
  | .ok format =>
    if format ≠ 2 then (.error .invalidFormat, outInit, uriInit)
    else
      match readU8At data 9 with
      | .error e => (.error e, outInit, uriInit)
      | .ok defaultEncodingInt =>
        match intToEncoding defaultEncodingInt with
        | .error e => (.error e, outInit, uriInit)
        | .ok defaultEncoding =>
          match readU16At data 10 with
          | .error e => (.error e, outInit, uriInit)
          | .ok mappingCount =>
            match readU16At data 12 with
            | .error e => (.error e, outInit, uriInit)
            | .ok mappingsOffset =>
              let r := decodeEntries (data.drop mappingsOffset) mappingCount
                defaultEncoding 0 outInit
              match readU16At data 20 with
              | .error e => (.error e, r.2, uriInit)
              | .ok uriTemplateLength =>
                let uriTemplate := (data.drop 22).take uriTemplateLength
                if uriTemplate.length ≠ uriTemplateLength then
                  (.error .notEnoughInput, r.2, uriInit)
                else (.ok (), r.2, uriTemplate)

/-! ### IFT table patch-map maintenance (`ift/proto/ift_table.cc`) -/

/-- One `SubsetMapping` message of the `IFT` proto: a biased sparse bit set
of codepoints, the patch id (the patch index), and an optional per-mapping
encoding (the proto default `DEFAULT_ENCODING` when unset). -/
structure SubsetMapping where
  bias : Nat
  codepointSet : List Nat
  id : Nat
  patchEncoding : PatchEncoding
deriving DecidableEq

/-- The fields of the `IFT` proto used by the embedded code. -/
structure IFTProto where
  defaultPatchEncoding : PatchEncoding
  subsetMapping : List SubsetMapping
deriving DecidableEq

/-- The inner loop of `IFTTable::CreatePatchMap` for one mapping: each
decoded codepoint (rebased by `bias`) is inserted into the
codepoint-keyed map with value `(patch index, encoding)`, and a codepoint
already present is an error. -/
def addCodepoints (bias idx : Nat) (enc : PatchEncoding) :
    List Nat → List (Nat × Nat × PatchEncoding) →
    Except Err (List (Nat × Nat × PatchEncoding))
  | [], acc => .ok acc
  | cp :: rest, acc =>
    let actual := cp + bias
    if (acc.map (·.1)).contains actual then .error .duplicateCodepoint
    else addCodepoints bias idx enc rest (acc ++ [(actual, idx, enc)])

/-- The mapping loop of `IFTTable::CreatePatchMap`: per mapping, resolve
the encoding (the proto sentinel falls back to the table default), decode
the sparse bit set, and insert the rebased codepoints. -/
def createPatchMapLoop (defaultEnc : PatchEncoding) :
    List SubsetMapping → List (Nat × Nat × PatchEncoding) →
    Except Err (List (Nat × Nat × PatchEncoding))
  | [], acc => .ok acc
  | m :: rest, acc =>
    let encoding :=
      if m.patchEncoding = PatchEncoding.defaultEncoding then defaultEnc
      else m.patchEncoding
    match sbsDecode m.codepointSet with
    | .error e => .error e
    | .ok (cps, _consumed) =>
      match addCodepoints m.bias m.id encoding cps acc with
      | .error e => .error e
      | .ok acc2 => createPatchMapLoop defaultEnc rest acc2

/-- `IFTTable::CreatePatchMap`. -/
def createPatchMap (ift : IFTProto) : Except Err (List (Nat × Nat × PatchEncoding)) :=
  createPatchMapLoop ift.defaultPatchEncoding ift.subsetMapping []

/-- The erase loop of `IFTTable::RemovePatches`: drop every mapping whose
`id` is in `patch_indices`, keeping the rest in order. -/
def removePatchesMapping (patchIndices : List Nat) :
    List SubsetMapping → List SubsetMapping
  | [] => []
  | m :: rest =>
    if m.id ∈ patchIndices then removePatchesMapping patchIndices rest
    else m :: removePatchesMapping patchIndices rest

/-- `IFTTable::RemovePatches`: filter the proto's mappings, then rebuild
the in-memory patch map (`UpdatePatchMap` / `CreatePatchMap`).  Returns
the updated proto and the rebuild result (the patch map on success). -/
def removePatches (patchIndices : List Nat) (ift : IFTProto) :
    IFTProto × Except Err (List (Nat × Nat × PatchEncoding)) :=
  let ift2 : IFTProto :=
    ⟨ift.defaultPatchEncoding, removePatchesMapping patchIndices ift.subsetMapping⟩
  (ift2, createPatchMap ift2)

/-! ### IFTB-conversion table ordering (`IFTTable::AddToFont`) -/

/-- `HB_TAG('g','v','a','r')`. -/
def gvarTag : Nat := 0x67766172
/-- `HB_TAG('g','l','y','f')`. -/
def glyfTag : Nat := 0x676C7966
/-- `HB_TAG('l','o','c','a')`. -/
def locaTag : Nat := 0x6C6F6361
/-- `HB_TAG('C','F','F',' ')`. -/
def cffTag : Nat := 0x43464620
/-- `HB_TAG('C','F','F','2')`. -/
def cff2Tag : Nat := 0x43464632
/-- `HB_TAG('I','F','T',' ')`. -/
def iftTag : Nat := 0x49465420
/-- `FontHelper::kIFTB = HB_TAG('I','F','T','B')`. -/
def iftbTag : Nat := 0x49465442

/-- `move_tag_to_back`: if the tag is present, erase its (first)
occurrence and push it to the back. -/
def moveTagToBack (tags : List Nat) (tag : Nat) : List Nat :=
  if tag ∈ tags then tags.erase tag ++ [tag] else tags

/-- The five tags `AddToFont` moves to the back, in the order the source
moves them. -/
def outlineOrderTags : List Nat := [gvarTag, glyfTag, locaTag, cffTag, cff2Tag]

/-- The tag list before reordering in the `iftb_conversion` path of
`IFTTable::AddToFont`: the `IFTB` table is dropped, and the `IFT ` tag is
appended if it is not already present. -/
def iftbBase (tags : List Nat) : List Nat :=
  let tags1 := tags.erase iftbTag
  if iftTag ∈ tags1 then tags1 else tags1 ++ [iftTag]

/-- The final table order produced by the `iftb_conversion` path of
`IFTTable::AddToFont`: the base list with the five outline tags each moved
to the back in turn. -/
def addToFontTagOrder (tags : List Nat) : List Nat :=
  outlineOrderTags.foldl moveTagToBack (iftbBase tags)

/-! ### Claim C1: patch-map serialize/deserialize round trip -/

/-- A valid in-memory patch map: one entry, empty coverage, patch index 1,
IFTB encoding, within all limits, no design-space coverage. -/
def c1Map : List Entry := [⟨⟨[], [], []⟩, 1, .iftb, false⟩]

/-- A two-byte URI template ("ab"). -/
def c1Uri : List Nat := [97, 98]

/-- The bytes `Serialize` produces for `c1Map` with template `c1Uri`. -/
def c1Bytes : List Nat :=
  [2, 0, 0, 0, 0, 0, 0, 0, 0, 0, 0, 0, 0, 0, 0, 0, 0, 0, 0, 0, 0,
   0, 0, 1, 0, 0, 0, 24, 0, 0, 0, 0, 0, 2, 97, 98, 0]

/-- C1: the round trip `Deserialize(Serialize(M)) = M` (modulo
default-encoding selection) fails on the code.  `Serialize` writes the
entry count at offset 22 and the default encoding at offset 21, but
`Deserialize` reads the count at offset 10 and the encoding at offset 9
(bytes of the all-zero id), so deserializing the serialized bytes of the
one-entry map `c1Map` succeeds with an empty map and an empty URI
template instead of recovering `c1Map` and `c1Uri`. -/
theorem c1_round_trip_fails :
    serialize c1Map false c1Uri = Except.ok c1Bytes
    ∧ deserialize c1Bytes [] [] = (Except.ok (), [], [])
    ∧ ([] : List Entry) ≠ c1Map
    ∧ ([] : List Nat) ≠ c1Uri := by
  exact ⟨rfl, rfl, by decide, by decide⟩

/-! ### Claim C2: entry-index delta semantics -/

/-- An entry with patch index 5 following a previous index of 0, so the
encoder emits an explicit delta. -/
def c2Entry : Entry := ⟨⟨[], [], []⟩, 5, .iftb, false⟩

/-- C2: the decoder does not advance the running index by the explicit
delta alone — it increments unconditionally and then adds the delta, while
the encoder writes `delta = patch_index - previous`.  Encoding `c2Entry`
(index 5, previous 0) produces format byte 8 and delta bytes `[0, 5]`, and
decoding those bytes yields patch index 6, not 5, so the decoded index
sequence differs from the encoded one. -/
theorem c2_entry_index_off_by_one :
    encodeEntry c2Entry 0 .iftb = Except.ok [8, 0, 5]
    ∧ decodeEntry [8, 0, 5] .iftb 0 [] =
        Except.ok ([], 6, [⟨⟨[], [], []⟩, 6, .iftb, false⟩])
    ∧ (6 : Nat) ≠ c2Entry.patchIndex := by
  exact ⟨rfl, rfl, by decide⟩

/-! ### Claim C3: truncated input handling -/

/-- A format-2 table whose header promises one mapping entry but whose
entry stream (at the stored offset 22) is empty: truncation inside the
packed entry stream. -/
def c3TruncatedStream : List Nat :=
  [2, 0, 0, 0, 0, 0, 0, 0, 0, 0, 0, 1, 0, 22, 0, 0, 0, 0, 0, 0, 0, 0]

/-- A format-2 table with one decodable entry (format byte 0 at offset 34)
whose URI template field is truncated (declared length 0xFFFF). -/
def c3TruncatedUri : List Nat :=
  [2, 0, 0, 0, 0, 0, 0, 0, 0, 0, 0, 1, 0, 34, 0, 0, 0, 0, 0, 0,
   255, 255, 0, 0, 0, 0, 0, 0, 0, 0, 0, 0, 0, 0, 0]

/-- C3: truncated input is not answered with `NOT_ENOUGH_INPUT`, and
partially decoded entries are returned.  `Deserialize` binds the status
of `DecodeEntries` to a local variable and never checks it, so a table
whose entry stream is truncated (`c3TruncatedStream`) deserializes with
status OK; and when a later field fails (`c3TruncatedUri`, truncated URI
template), the entry already decoded stays in the out-map. -/
theorem c3_truncation_not_reported :
    deserialize c3TruncatedStream [] [] = (Except.ok (), [], [])
    ∧ deserialize c3TruncatedUri [] [] =
        (Except.error Err.notEnoughInput, [⟨⟨[], [], []⟩, 1, .iftb, false⟩], []) := by
  exact ⟨rfl, rfl⟩

/-! ### Claim C4: header layout and entries offset -/

/-- A one-entry patch map whose entry needs an explicit delta. -/
def c4Map : List Entry := [⟨⟨[], [], []⟩, 5, .iftb, false⟩]

/-- The bytes `Serialize` produces for `c4Map` with the one-byte URI
template `[120]`. -/
def c4Bytes : List Nat :=
  [2, 0, 0, 0, 0, 0, 0, 0, 0, 0, 0, 0, 0, 0, 0, 0, 0, 0, 0, 0, 0,
   0, 0, 1, 0, 0, 0, 23, 0, 0, 0, 0, 0, 1, 120, 8, 0, 5]

/-- C4: `Serialize` does write the header fields at the claimed offsets
(default encoding at 21, entry count at 22, entries-offset field at 24,
id-strings offset at 28, URI template length at 32, template at 34), but
the packed entry stream does not begin at the byte offset stored in the
entries-offset field: the field holds 22 + template length (23 here,
`header_min_length = 22` in the source) while the stream begins at
34 + template length (35 here).  And `Deserialize` does not read the
fields from these positions: on `c4Bytes` it reads entry count 0 and
template length 0 from offsets 10 and 20, returning an empty map and an
empty template. -/
theorem c4_offset_field_mismatch :
    serialize c4Map false [120] = Except.ok c4Bytes
    ∧ (c4Bytes.drop 21).take 1 = [0]
    ∧ (c4Bytes.drop 22).take 2 = [0, 1]
    ∧ (c4Bytes.drop 24).take 4 = [0, 0, 0, 23]
    ∧ (c4Bytes.drop 28).take 4 = [0, 0, 0, 0]
    ∧ (c4Bytes.drop 32).take 2 = [0, 1]
    ∧ (c4Bytes.drop 34).take 1 = [120]
    ∧ c4Bytes.drop 35 = [8, 0, 5]
    ∧ (23 : Nat) ≠ 35
    ∧ deserialize c4Bytes [] [] = (Except.ok (), [], []) := by
  exact ⟨rfl, rfl, rfl, rfl, rfl, rfl, rfl, rfl, by decide, rfl⟩

/-! ### Claim C5: cursor advance past sparse-bit-set bytes -/

/-- An entry stream of two entries: the first has the codepoints bit set
(format byte 0x20), a three-byte bias of 0, and the two-byte sparse bit
set `[1, 1]` (encoding the set `{0}`); the second entry is the single
byte 0. -/
def c5EntryStream : List Nat := [32, 0, 0, 0, 1, 1, 0]

/-- C5: after decoding an entry with codepoints, the decoder's byte cursor
is not advanced past the sparse-bit-set bytes (the source has a TODO in
place of the advance, and does not compute the consumed length from the
tree structure).  On `c5EntryStream` the first entry's set occupies the
two bytes `[1, 1]` (as the modelled decoder reports), so decoding of the
next entry should resume at `[0]`; instead the decoder returns `[1, 1, 0]`
as the remaining stream — the set bytes themselves. -/
theorem c5_cursor_not_advanced :
    decodeEntry c5EntryStream .iftb 0 [] =
      Except.ok ([1, 1, 0], 1, [⟨⟨[0], [], []⟩, 1, .iftb, false⟩])
    ∧ sbsDecode [1, 1, 0] = Except.ok ([0], 2)
    ∧ c5EntryStream.drop 6 = [0]
    ∧ ([1, 1, 0] : List Nat) ≠ [0] := by
  exact ⟨rfl, rfl, rfl, by decide⟩

/-! ### Claim C6: patch-map consumption (`RemovePatches`) -/

theorem removePatchesMapping_eq_filter (s : List Nat) (l : List SubsetMapping) :
    removePatchesMapping s l = l.filter fun m => decide (m.id ∉ s) := by
  induction l with
  | nil => rfl
  | cons m rest ih =>
    by_cases h : m.id ∈ s <;>
      simp [removePatchesMapping, List.filter_cons, h, ih]

theorem addCodepoints_mem (bias idx : Nat) (enc : PatchEncoding) :
    ∀ (cps : List Nat) (acc acc2 : List (Nat × Nat × PatchEncoding)),
      addCodepoints bias idx enc cps acc = .ok acc2 →
      ∀ x ∈ acc2, x ∈ acc ∨ x.2.1 = idx := by
  intro cps
  induction cps with
  | nil =>
    intro acc acc2 h x hx
    simp only [addCodepoints, Except.ok.injEq] at h
    exact Or.inl (h ▸ hx)
  | cons cp rest ih =>
    intro acc acc2 h x hx
    simp only [addCodepoints] at h
    split at h
    · exact absurd h (by simp)
    · rcases ih _ _ h x hx with h1 | h2
      · rcases List.mem_append.mp h1 with h3 | h3
        · exact Or.inl h3
        · simp only [List.mem_singleton] at h3
          subst h3
          exact Or.inr rfl
      · exact Or.inr h2

theorem createPatchMapLoop_mem (d : PatchEncoding) :
    ∀ (ms : List SubsetMapping) (acc pm : List (Nat × Nat × PatchEncoding)),
      createPatchMapLoop d ms acc = .ok pm →
      ∀ x ∈ pm, x ∈ acc ∨ ∃ m ∈ ms, x.2.1 = m.id := by
  intro ms
  induction ms with
  | nil =>
    intro acc pm h x hx
    simp only [createPatchMapLoop, Except.ok.injEq] at h
    exact Or.inl (h ▸ hx)
  | cons m rest ih =>
    intro acc pm h x hx
    simp only [createPatchMapLoop] at h
    split at h
    · exact absurd h (by simp)
    · split at h
      · exact absurd h (by simp)
      · rcases ih _ _ h x hx with h1 | ⟨m2, hm2, he⟩
        · rcases addCodepoints_mem _ _ _ _ _ _ (by assumption) x h1 with h2 | h3
          · exact Or.inl h2
          · exact Or.inr ⟨m, List.mem_cons_self m rest, h3⟩
        · exact Or.inr ⟨m2, List.mem_cons_of_mem m hm2, he⟩

/-- C6: after a successful `RemovePatches(S)` the resulting patch map has
no entry whose patch index lies in `S`; every proto mapping whose id is
not in `S` is preserved unchanged (and in order — the kept mappings are a
sublist of the original), and every kept mapping comes from the original
with an id outside `S`. -/
theorem c6_remove_patches (s : List Nat) (ift : IFTProto)
    (pm : List (Nat × Nat × PatchEncoding))
    (hok : (removePatches s ift).2 = Except.ok pm) :
    (∀ x ∈ pm, x.2.1 ∉ s)
    ∧ (∀ m ∈ (removePatches s ift).1.subsetMapping,
        m ∈ ift.subsetMapping ∧ m.id ∉ s)
    ∧ (∀ m ∈ ift.subsetMapping, m.id ∉ s →
        m ∈ (removePatches s ift).1.subsetMapping)
    ∧ ((removePatches s ift).1.subsetMapping).Sublist ift.subsetMapping := by
  have hmap : (removePatches s ift).1.subsetMapping =
      ift.subsetMapping.filter fun m => decide (m.id ∉ s) := by
    simpa [removePatches] using
      removePatchesMapping_eq_filter s ift.subsetMapping
  refine ⟨?_, ?_, ?_, ?_⟩
  · intro x hx
    have hloop : createPatchMapLoop ift.defaultPatchEncoding
        (removePatchesMapping s ift.subsetMapping) [] = .ok pm := by
      simpa [removePatches, createPatchMap] using hok
    rcases createPatchMapLoop_mem _ _ _ _ hloop x hx with h1 | ⟨m, hm, he⟩
    · simp at h1
    · rw [removePatchesMapping_eq_filter] at hm
      have := (List.mem_filter.mp hm).2
      simp only [decide_eq_true_eq] at this
      exact he ▸ this
  · intro m hm
    rw [hmap] at hm
    have h2 := List.mem_filter.mp hm
    exact ⟨h2.1, by simpa using h2.2⟩
  · intro m hm hid
    rw [hmap]
    exact List.mem_filter.mpr ⟨hm, by simpa using hid⟩
  · rw [hmap]
    exact List.filter_sublist _

/-- A concrete IFT proto with two mappings (patch indices 1 and 2), each
carrying the sparse bit set `[1, 1]`-style encoding of a singleton. -/
def c6Proto : IFTProto :=
  ⟨.iftb, [⟨0, [1, 1], 1, .defaultEncoding⟩, ⟨5, [1, 2], 2, .defaultEncoding⟩]⟩

/-- Witness for C6 at `c6Proto` with `S = {2}`: the rebuild succeeds with
the single remaining mapping's codepoint entry, whose patch index 1 is
not in `S`. -/
theorem c6_remove_patches_witness :
    (∀ x ∈ [((0 : Nat), (1 : Nat), PatchEncoding.iftb)], x.2.1 ∉ ([2] : List Nat))
    ∧ (removePatches [2] c6Proto).1.subsetMapping = [⟨0, [1, 1], 1, .defaultEncoding⟩] := by
  exact ⟨(c6_remove_patches [2] c6Proto [(0, 1, .iftb)] rfl).1, rfl⟩

/-! ### Claim C9: serializer size limits -/

/-- The spec's `LIMIT_EXCEEDED` error kind: the entry count or the URI
template exceeds 0xFFFF. -/
def isLimitExceeded : Err → Bool
  | .entryCountLimit => true
  | .uriTemplateLimit => true
  | _ => false

theorem pickDefaultEncoding_spec (m : List Entry) :
    (countEnc m .iftb ≥ countEnc m .sharedBrotli
      ∧ countEnc m .iftb ≥ countEnc m .perTableSharedBrotli
      ∧ pickDefaultEncoding m = .iftb)
    ∨ (¬(countEnc m .iftb ≥ countEnc m .sharedBrotli
          ∧ countEnc m .iftb ≥ countEnc m .perTableSharedBrotli)
      ∧ countEnc m .sharedBrotli ≥ countEnc m .iftb
      ∧ countEnc m .sharedBrotli ≥ countEnc m .perTableSharedBrotli
      ∧ pickDefaultEncoding m = .sharedBrotli)
    ∨ (¬(countEnc m .iftb ≥ countEnc m .sharedBrotli
          ∧ countEnc m .iftb ≥ countEnc m .perTableSharedBrotli)
      ∧ ¬(countEnc m .sharedBrotli ≥ countEnc m .iftb
          ∧ countEnc m .sharedBrotli ≥ countEnc m .perTableSharedBrotli)
      ∧ pickDefaultEncoding m = .perTableSharedBrotli) := by
  by_cases h1 : countEnc m .iftb ≥ countEnc m .sharedBrotli
      ∧ countEnc m .iftb ≥ countEnc m .perTableSharedBrotli
  · refine Or.inl ⟨h1.1, h1.2, ?_⟩
    simp only [pickDefaultEncoding, countEnc] at h1 ⊢
    rw [if_pos h1]
  · by_cases h2 : countEnc m .sharedBrotli ≥ countEnc m .iftb
        ∧ countEnc m .sharedBrotli ≥ countEnc m .perTableSharedBrotli
    · refine Or.inr (Or.inl ⟨h1, h2.1, h2.2, ?_⟩)
      simp only [pickDefaultEncoding, countEnc] at h1 h2 ⊢
      rw [if_neg h1, if_pos h2]
    · refine Or.inr (Or.inr ⟨h1, h2, ?_⟩)
      simp only [pickDefaultEncoding, countEnc] at h1 h2 ⊢
      rw [if_neg h1, if_neg h2]

theorem pickDefaultEncoding_toInt (m : List Entry) :
    encodingToInt (pickDefaultEncoding m) =
      .ok (encodingWireValue (pickDefaultEncoding m))
    ∧ encodingWireValue (pickDefaultEncoding m) ≤ 2 := by
  rcases pickDefaultEncoding_spec m with ⟨_, _, hp⟩ | ⟨_, _, _, hp⟩ | ⟨_, _, hp⟩ <;>
    rw [hp] <;> exact ⟨rfl, by decide⟩

theorem encodingToInt_error (p : PatchEncoding) (e : Err)
    (h : encodingToInt p = .error e) : e = .unknownPatchEncoding := by
  cases p <;> simp_all [encodingToInt]

theorem encodeEntry_error_not_limit (entry : Entry) (last : Nat)
    (d : PatchEncoding) (e : Err) (h : encodeEntry entry last d = .error e) :
    isLimitExceeded e = false := by
  simp only [encodeEntry] at h
  repeat' split at h
  all_goals cases h
  all_goals try rfl
  all_goals
    (rename_i heq
     first
     | exact encodingToInt_error _ _ heq ▸ rfl
     | (repeat' split at heq
        all_goals cases heq
        all_goals first
          | rfl
          | (rename_i heq2; exact encodingToInt_error _ _ heq2 ▸ rfl)))

theorem encodeEntries_error_not_limit :
    ∀ (es : List Entry) (isExt : Bool) (d : PatchEncoding) (last : Nat) (e : Err),
      encodeEntries es isExt d last = .error e → isLimitExceeded e = false := by
  intro es
  induction es with
  | nil => intro _ _ _ _ h; exact absurd h (by simp [encodeEntries])
  | cons a rest ih =>
    intro isExt d last e h
    simp only [encodeEntries] at h
    split at h
    · exact ih _ _ _ _ h
    · split at h
      · rename_i heq
        injection h with h2
        exact h2 ▸ encodeEntry_error_not_limit _ _ _ _ heq
      · split at h
        · injection h with h2
          subst h2
          exact ih _ _ _ _ (by assumption)
        · exact absurd h (by simp)

/-- C9: `Serialize` fails with the `LIMIT_EXCEEDED` error kind exactly
when the map has more than 0xFFFF entries or the URI template is longer
than 0xFFFF bytes; maps and templates within the limits are never
rejected for size. -/
theorem c9_serialize_limits (m : List Entry) (isExt : Bool) (uri : List Nat) :
    (∃ e, serialize m isExt uri = .error e ∧ isLimitExceeded e = true) ↔
      (m.length > 65535 ∨ uri.length > 65535) := by
  have hpick := pickDefaultEncoding_toInt m
  constructor
  · rintro ⟨e, he, hl⟩
    simp only [serialize] at he
    rw [hpick.1] at he
    by_cases h1 : m.length > 65535
    · exact Or.inl h1
    · by_cases h2 : uri.length > 65535
      · exact Or.inr h2
      · exfalso
        simp only [h1, h2, if_false] at he
        split at he
        · rename_i heq
          injection he with he2
          subst he2
          exact absurd (encodeEntries_error_not_limit _ _ _ _ _ heq) (by simp [hl])
        · exact absurd he (by simp)
  · intro h
    by_cases h1 : m.length > 65535
    · refine ⟨.entryCountLimit, ?_, rfl⟩
      simp only [serialize]
      rw [hpick.1]
      simp [h1]
    · have h2 : uri.length > 65535 := by
        rcases h with h | h
        · exact absurd h h1
        · exact h
      refine ⟨.uriTemplateLimit, ?_, rfl⟩
      simp only [serialize]
      rw [hpick.1]
      simp [h1, h2]

/-! ### Claim C8: default-encoding selection -/

theorem pickDefaultEncoding_argmax (m : List Entry) (e : PatchEncoding)
    (he : encodingWireValue e ≤ 2) :
    countEnc m e ≤ countEnc m (pickDefaultEncoding m)
    ∧ (countEnc m e = countEnc m (pickDefaultEncoding m) →
        encodingWireValue (pickDefaultEncoding m) ≤ encodingWireValue e) := by
  rcases pickDefaultEncoding_spec m with ⟨ha, hb, hp⟩ | ⟨hn, ha, hb, hp⟩ |
      ⟨hn1, hn2, hp⟩ <;>
    rw [hp] <;> cases e <;> simp only [encodingWireValue] at he ⊢ <;>
      refine ⟨?_, fun h3 => ?_⟩ <;> omega

theorem serialize_ok_bytes (m : List Entry) (isExt : Bool) (uri bs : List Nat)
    (hs : serialize m isExt uri = Except.ok bs) :
    ∃ eb, encodeEntries m isExt (pickDefaultEncoding m) 0 = .ok eb ∧
      bs = serializeHeader (encodingWireValue (pickDefaultEncoding m))
            m.length uri ++ eb := by
  simp only [serialize] at hs
  rw [(pickDefaultEncoding_toInt m).1] at hs
  split at hs
  · exact absurd hs (by simp)
  · rename_i v hv
    injection hv with hv2
    split at hs
    · exact absurd hs (by simp)
    · split at hs
      · exact absurd hs (by simp)
      · split at hs
        · exact absurd hs (by simp)
        · rename_i eb heq
          injection hs with h2
          exact ⟨eb, heq, by rw [← h2, ← hv2]⟩

/-- C8: the default encoding written at offset 21 of the serialized header
is `PickDefaultEncoding`'s choice, which occurs at least as often as any
wire encoding among the map's entries; on a tie the encoding with the
lower numeric wire value is chosen. -/
theorem c8_default_encoding_most_common (m : List Entry) (e : PatchEncoding)
    (isExt : Bool) (uri bs : List Nat)
    (hs : serialize m isExt uri = Except.ok bs)
    (he : encodingWireValue e ≤ 2) :
    (bs.drop 21).head? = some (encodingWireValue (pickDefaultEncoding m))
    ∧ countEnc m e ≤ countEnc m (pickDefaultEncoding m)
    ∧ (countEnc m e = countEnc m (pickDefaultEncoding m) →
        encodingWireValue (pickDefaultEncoding m) ≤ encodingWireValue e) := by
  have harg := pickDefaultEncoding_argmax m e he
  refine ⟨?_, harg.1, harg.2⟩
  rcases serialize_ok_bytes m isExt uri bs hs with ⟨eb, _heb, hbs⟩
  subst hbs
  have hmod : encodingWireValue (pickDefaultEncoding m) % 256 =
      encodingWireValue (pickDefaultEncoding m) :=
    Nat.mod_eq_of_lt (lt_of_le_of_lt (pickDefaultEncoding_toInt m).2 (by norm_num))
  calc ((serializeHeader (encodingWireValue (pickDefaultEncoding m))
          m.length uri ++ eb).drop 21).head?
      = some (encodingWireValue (pickDefaultEncoding m) % 256) := rfl
    _ = some (encodingWireValue (pickDefaultEncoding m)) := by rw [hmod]

/-- A patch map with a tie: one IFTB entry and one shared-brotli entry. -/
def c8Map : List Entry :=
  [⟨⟨[], [], []⟩, 1, .iftb, false⟩, ⟨⟨[], [], []⟩, 2, .sharedBrotli, false⟩]

/-- The bytes `Serialize` produces for `c8Map` with an empty template. -/
def c8Bytes : List Nat :=
  [2, 0, 0, 0, 0, 0, 0, 0, 0, 0, 0, 0, 0, 0, 0, 0, 0, 0, 0, 0, 0,
   0, 0, 2, 0, 0, 0, 22, 0, 0, 0, 0, 0, 0, 0, 16, 1]

/-- Witness for C8 at `c8Map`: encodings 0 and 1 tie at one entry each,
the tie-break picks wire value 0 (IFTB), and byte 21 of the serialized
output carries it. -/
theorem c8_default_encoding_witness :
    (c8Bytes.drop 21).head? = some (encodingWireValue (pickDefaultEncoding c8Map))
    ∧ countEnc c8Map .sharedBrotli ≤ countEnc c8Map (pickDefaultEncoding c8Map)
    ∧ encodingWireValue (pickDefaultEncoding c8Map) ≤
        encodingWireValue PatchEncoding.sharedBrotli := by
  have h := c8_default_encoding_most_common c8Map .sharedBrotli false [] c8Bytes
    rfl (by decide)
  exact ⟨h.1, h.2.1, h.2.2 (by decide)⟩

/-! ### Claim C7: IFTB-conversion table ordering -/

theorem moveTagToBack_mem (l : List Nat) (t x : Nat) :
    x ∈ moveTagToBack l t ↔ x ∈ l := by
  unfold moveTagToBack
  split
  · rename_i hmem
    constructor
    · intro hx
      rcases List.mem_append.mp hx with h1 | h1
      · exact List.mem_of_mem_erase h1
      · simp only [List.mem_singleton] at h1
        exact h1 ▸ hmem
    · intro hx
      by_cases hxt : x = t
      · exact List.mem_append.mpr (Or.inr (by simp [hxt]))
      · exact List.mem_append.mpr (Or.inl ((List.mem_erase_of_ne hxt).mpr hx))
  · exact Iff.rfl

theorem moveTagToBack_nodup (l : List Nat) (t : Nat) (h : l.Nodup) :
    (moveTagToBack l t).Nodup := by
  unfold moveTagToBack
  split
  · refine List.Nodup.append (h.erase t) (List.nodup_singleton t) ?_
    intro x hx hx2
    simp only [List.mem_singleton] at hx2
    subst hx2
    exact (List.Nodup.not_mem_erase h) hx
  · exact h

theorem foldl_moveTagToBack_mem :
    ∀ (ms l : List Nat) (x : Nat),
      x ∈ List.foldl moveTagToBack l ms ↔ x ∈ l := by
  intro ms
  induction ms with
  | nil => intro l x; exact Iff.rfl
  | cons m rest ih =>
    intro l x
    exact (ih (moveTagToBack l m) x).trans (moveTagToBack_mem l m x)

theorem foldl_moveTagToBack_eq :
    ∀ (ms l : List Nat), ms.Nodup → l.Nodup →
      List.foldl moveTagToBack l ms =
        l.filter (fun t => decide (t ∉ ms)) ++
          ms.filter (fun t => decide (t ∈ l)) := by
  intro ms
  induction ms with
  | nil => intro l _ _; simp
  | cons m rest ih =>
    intro l hms hl
    have hm_rest : m ∉ rest := (List.nodup_cons.mp hms).1
    have hrest : rest.Nodup := (List.nodup_cons.mp hms).2
    have step : List.foldl moveTagToBack l (m :: rest) =
        List.foldl moveTagToBack (moveTagToBack l m) rest := rfl
    rw [step, ih (moveTagToBack l m) hrest (moveTagToBack_nodup l m hl)]
    by_cases hml : m ∈ l
    · have hmv : moveTagToBack l m = l.erase m ++ [m] := by
        unfold moveTagToBack
        rw [if_pos hml]
      rw [hmv, List.filter_append]
      have h1 : (l.erase m).filter (fun t => decide (t ∉ rest)) =
          l.filter (fun t => decide (t ∉ m :: rest)) := by
        rw [List.Nodup.erase_eq_filter hl, List.filter_filter]
        refine List.filter_congr ?_
        intro x _
        by_cases hx1 : x = m <;> by_cases hx2 : x ∈ rest <;>
          simp [hx1, hx2, List.mem_cons]
      have h2 : [m].filter (fun t => decide (t ∉ rest)) = [m] := by
        simp [hm_rest]
      have h3 : rest.filter (fun t => decide (t ∈ l.erase m ++ [m])) =
          rest.filter (fun t => decide (t ∈ l)) := by
        refine List.filter_congr ?_
        intro x _
        by_cases hx1 : x = m
        · simp [hx1, hml]
        · have : (x ∈ l.erase m ++ [m]) ↔ (x ∈ l) := by
            rw [List.mem_append]
            constructor
            · rintro (hh | hh)
              · exact List.mem_of_mem_erase hh
              · simp only [List.mem_singleton] at hh
                exact absurd hh hx1
            · intro hh
              exact Or.inl ((List.mem_erase_of_ne hx1).mpr hh)
          simp [this]
      have h4 : (m :: rest).filter (fun t => decide (t ∈ l)) =
          m :: rest.filter (fun t => decide (t ∈ l)) := by
        rw [List.filter_cons]
        simp [hml]
      rw [h1, h2, h3, h4, List.append_assoc]
      rfl
    · have hmv : moveTagToBack l m = l := by
        unfold moveTagToBack
        rw [if_neg hml]
      rw [hmv]
      have h1 : l.filter (fun t => decide (t ∉ rest)) =
          l.filter (fun t => decide (t ∉ m :: rest)) := by
        refine List.filter_congr ?_
        intro x hx
        have hxm : x ≠ m := fun hh => hml (hh ▸ hx)
        by_cases hx2 : x ∈ rest <;> simp [hx2, hxm, List.mem_cons]
      have h2 : (m :: rest).filter (fun t => decide (t ∈ l)) =
          rest.filter (fun t => decide (t ∈ l)) := by
        rw [List.filter_cons]
        simp [hml]
      rw [h1, h2]

theorem outlineOrderTags_nodup : outlineOrderTags.Nodup := by decide

theorem iftbBase_nodup (tags : List Nat) (h : tags.Nodup) :
    (iftbBase tags).Nodup := by
  simp only [iftbBase]
  split
  · exact h.erase _
  · rename_i hnotin
    refine List.Nodup.append (h.erase _) (List.nodup_singleton _) ?_
    intro x hx hx2
    simp only [List.mem_singleton] at hx2
    subst hx2
    exact hnotin hx

theorem addToFontTagOrder_eq (tags : List Nat) (h : tags.Nodup) :
    addToFontTagOrder tags =
      (iftbBase tags).filter (fun t => decide (t ∉ outlineOrderTags)) ++
        outlineOrderTags.filter (fun t => decide (t ∈ iftbBase tags)) :=
  foldl_moveTagToBack_eq outlineOrderTags (iftbBase tags) (by decide)
    (iftbBase_nodup tags h)

theorem addToFontTagOrder_mem (tags : List Nat) (x : Nat) :
    x ∈ addToFontTagOrder tags ↔ x ∈ iftbBase tags :=
  foldl_moveTagToBack_mem outlineOrderTags (iftbBase tags) x

/-- The part of a tag list strictly after the first occurrence of `t`. -/
def afterTag (l : List Nat) (t : Nat) : List Nat :=
  (l.dropWhile fun x => decide (x ≠ t)).tail

theorem dropWhile_append_of_not_mem (l₁ l₂ : List Nat) (t : Nat) (h : t ∉ l₁) :
    (l₁ ++ l₂).dropWhile (fun x => decide (x ≠ t)) =
      l₂.dropWhile (fun x => decide (x ≠ t)) := by
  induction l₁ with
  | nil => rfl
  | cons a rest ih =>
    have ha : (decide (a ≠ t)) = true := by
      simp only [decide_eq_true_eq]
      intro hh
      exact h (by simp [hh])
    rw [List.cons_append, List.dropWhile_cons, ha]
    simp only [if_true]
    exact ih fun hh => h (List.mem_cons_of_mem a hh)

theorem notMem_filtered_outline (tags : List Nat) (t : Nat)
    (ht : t ∈ outlineOrderTags) :
    t ∉ (iftbBase tags).filter (fun x => decide (x ∉ outlineOrderTags)) := by
  intro hmem
  have h2 := (List.mem_filter.mp hmem).2
  simp only [decide_eq_true_eq] at h2
  exact h2 ht

/-- C7: the table order produced by the IFTB-conversion rebuild satisfies:
`gvar` precedes `glyf`; `glyf` precedes `loca`; `loca` is the last table
or is immediately followed by `CFF` or `CFF2`; nothing follows `CFF`
except possibly `CFF2`, and nothing follows `CFF2`; and any two tables
outside the five moved outline tags (and other than the dropped `IFTB`
tag) keep their relative order from the input. -/
theorem c7_iftb_table_ordering (tags : List Nat) (h : tags.Nodup) :
    (gvarTag ∈ addToFontTagOrder tags → glyfTag ∈ addToFontTagOrder tags →
      [gvarTag, glyfTag].Sublist (addToFontTagOrder tags))
    ∧ (glyfTag ∈ addToFontTagOrder tags → locaTag ∈ addToFontTagOrder tags →
      [glyfTag, locaTag].Sublist (addToFontTagOrder tags))
    ∧ (locaTag ∈ addToFontTagOrder tags →
      afterTag (addToFontTagOrder tags) locaTag = []
      ∨ (afterTag (addToFontTagOrder tags) locaTag).head? = some cffTag
      ∨ (afterTag (addToFontTagOrder tags) locaTag).head? = some cff2Tag)
    ∧ (cffTag ∈ addToFontTagOrder tags →
      afterTag (addToFontTagOrder tags) cffTag = []
      ∨ afterTag (addToFontTagOrder tags) cffTag = [cff2Tag])
    ∧ (cff2Tag ∈ addToFontTagOrder tags →
      afterTag (addToFontTagOrder tags) cff2Tag = [])
    ∧ (∀ a b : Nat, a ∉ outlineOrderTags → b ∉ outlineOrderTags →
        a ≠ iftbTag → b ≠ iftbTag → [a, b].Sublist tags →
        [a, b].Sublist (addToFontTagOrder tags)) := by
  refine ⟨?_, ?_, ?_, ?_, ?_, ?_⟩
  · intro h1g h2g
    have hg : gvarTag ∈ iftbBase tags := (addToFontTagOrder_mem tags _).mp h1g
    have hf : glyfTag ∈ iftbBase tags := (addToFontTagOrder_mem tags _).mp h2g
    rw [addToFontTagOrder_eq tags h]
    refine List.Sublist.trans ?_ (List.sublist_append_right _ _)
    have hsub : [gvarTag, glyfTag].Sublist outlineOrderTags :=
      ((List.nil_sublist _).cons₂ _).cons₂ _
    have h2 := hsub.filter (fun t => decide (t ∈ iftbBase tags))
    simpa [hg, hf] using h2
  · intro h1g h2g
    have hg : glyfTag ∈ iftbBase tags := (addToFontTagOrder_mem tags _).mp h1g
    have hf : locaTag ∈ iftbBase tags := (addToFontTagOrder_mem tags _).mp h2g
    rw [addToFontTagOrder_eq tags h]
    refine List.Sublist.trans ?_ (List.sublist_append_right _ _)
    have hsub : [glyfTag, locaTag].Sublist outlineOrderTags :=
      (((List.nil_sublist _).cons₂ _).cons₂ _).cons _
    have h2 := hsub.filter (fun t => decide (t ∈ iftbBase tags))
    simpa [hg, hf] using h2
  · intro hloca
    have hlb : locaTag ∈ iftbBase tags := (addToFontTagOrder_mem tags _).mp hloca
    rw [addToFontTagOrder_eq tags h]
    unfold afterTag
    rw [dropWhile_append_of_not_mem _ _ _ (notMem_filtered_outline tags _ (by decide))]
    by_cases h1 : gvarTag ∈ iftbBase tags <;>
      by_cases h2 : glyfTag ∈ iftbBase tags <;>
        by_cases h4 : cffTag ∈ iftbBase tags <;>
          by_cases h5 : cff2Tag ∈ iftbBase tags <;>
            (simp only [outlineOrderTags, List.filter_cons, List.filter_nil,
              h1, h2, h4, h5, hlb]) <;> decide
  · intro hcff
    have hcb : cffTag ∈ iftbBase tags := (addToFontTagOrder_mem tags _).mp hcff
    rw [addToFontTagOrder_eq tags h]
    unfold afterTag
    rw [dropWhile_append_of_not_mem _ _ _ (notMem_filtered_outline tags _ (by decide))]
    by_cases h1 : gvarTag ∈ iftbBase tags <;>
      by_cases h2 : glyfTag ∈ iftbBase tags <;>
        by_cases h3 : locaTag ∈ iftbBase tags <;>
          by_cases h5 : cff2Tag ∈ iftbBase tags <;>
            (simp only [outlineOrderTags, List.filter_cons, List.filter_nil,
              h1, h2, h3, h5, hcb]) <;> decide
  · intro hcff2
    have hcb : cff2Tag ∈ iftbBase tags := (addToFontTagOrder_mem tags _).mp hcff2
    rw [addToFontTagOrder_eq tags h]
    unfold afterTag
    rw [dropWhile_append_of_not_mem _ _ _ (notMem_filtered_outline tags _ (by decide))]
    by_cases h1 : gvarTag ∈ iftbBase tags <;>
      by_cases h2 : glyfTag ∈ iftbBase tags <;>
        by_cases h3 : locaTag ∈ iftbBase tags <;>
          by_cases h4 : cffTag ∈ iftbBase tags <;>
            (simp only [outlineOrderTags, List.filter_cons, List.filter_nil,
              h1, h2, h3, h4, hcb]) <;> decide
  · intro a b ha hb hai hbi hab
    have s1 : [a, b].Sublist (tags.filter fun t => t != iftbTag) := by
      have h2 := hab.filter (fun t => t != iftbTag)
      simpa [hai, hbi] using h2
    have s2 : [a, b].Sublist (tags.erase iftbTag) := by
      rw [List.Nodup.erase_eq_filter h]
      exact s1
    have s3 : [a, b].Sublist (iftbBase tags) := by
      simp only [iftbBase]
      split
      · exact s2
      · exact s2.trans (List.sublist_append_left _ _)
    have s4 : [a, b].Sublist
        ((iftbBase tags).filter fun t => decide (t ∉ outlineOrderTags)) := by
      have h2 := s3.filter (fun t => decide (t ∉ outlineOrderTags))
      simpa [ha, hb] using h2
    rw [addToFontTagOrder_eq tags h]
    exact s4.trans (List.sublist_append_left _ _)

/-- A concrete input font table order: cmap, loca, head, glyf, IFTB, gvar,
CFF. -/
def c7Tags : List Nat :=
  [0x636D6170, locaTag, 0x68656164, glyfTag, iftbTag, gvarTag, cffTag]

/-- Witness for C7 at `c7Tags` (the reordered list is
cmap, head, `IFT `, gvar, glyf, loca, CFF). -/
theorem c7_iftb_table_ordering_witness :
    [gvarTag, glyfTag].Sublist (addToFontTagOrder c7Tags)
    ∧ (afterTag (addToFontTagOrder c7Tags) locaTag = []
      ∨ (afterTag (addToFontTagOrder c7Tags) locaTag).head? = some cffTag
      ∨ (afterTag (addToFontTagOrder c7Tags) locaTag).head? = some cff2Tag)
    ∧ [0x636D6170, 0x68656164].Sublist (addToFontTagOrder c7Tags) := by
  have hh := c7_iftb_table_ordering c7Tags (by decide)
  refine ⟨hh.1 (by decide) (by decide), hh.2.2.1 (by decide), ?_⟩
  exact hh.2.2.2.2.2 0x636D6170 0x68656164 (by decide) (by decide) (by decide)
    (by decide) (by decide)

end IFT






